import Mathlib

/-!
Verification of the Note Collection Manager of the personal notes manager
frontend (`src/notes_frontend/app.vue`, `<script setup>` block).

The embedding models the client-side (browser) execution of the component:
`isClient()` is true, and the single `localStorage` key `'notes'` is carried
in the state as `store : Option String` (`none` = key absent).  All
`Date.now()` calls performed inside one synchronous event handler are modelled
as the same instant `now`, and `Math.random().toString(36).slice(2)` as an
arbitrary string parameter `rand`.  The blocking `confirm(...)` dialogs are
modelled as boolean parameters giving the user's answer.

`JSON.stringify` / `JSON.parse` are the browser's JSON routines, embedded
at two levels.  For the persist/load round trip, `stringifyNotes` produces
exactly the canonical whitespace-free JSON that `JSON.stringify` emits for
an array of note objects, and `parseNotes` parses that canonical format —
on which it agrees with `JSON.parse`.  For the load path on arbitrary
stored strings, `parseJson` models `JSON.parse` itself over general JSON
values (`Json`), and `loadNotesJson` gives the value `loadNotes` actually
returns: the TypeScript source casts the parsed value with `as Note[]`
without any runtime shape check, so a successful parse of any JSON value
passes through unvalidated, and only a `JSON.parse` syntax error is
recovered to the empty collection.
-/

namespace NotesApp

/-- A note record, mirroring the TypeScript `Note` type: `id`, `title`,
`body` are strings, `created` and `updated` are millisecond timestamps. -/
structure Note where
  id : String
  title : String
  body : String
  created : Nat
  updated : Nat
  deriving DecidableEq

/-! ## JSON serialization (`JSON.stringify` on a `Note[]` value) -/

/-- Lower-case hexadecimal digit, as emitted by `JSON.stringify` in
control-character escapes. -/
def hexDigitChar (d : Nat) : Char :=
  if d < 10 then Char.ofNat (48 + d) else Char.ofNat (87 + d)

/-- The JSON escaping `JSON.stringify` applies to a single character of a
string value: `"` and `\` are backslash-escaped, the named control escapes
`\b \t \n \f \r` are used where they exist, remaining control characters
become `\u00XY`, and every other character is emitted literally. -/
def escapeChar (c : Char) : List Char :=
  if c = '"' then ['\\', '"']
  else if c = '\\' then ['\\', '\\']
  else if c = '\n' then ['\\', 'n']
  else if c = '\r' then ['\\', 'r']
  else if c = '\t' then ['\\', 't']
  else if c.toNat = 8 then ['\\', 'b']
  else if c.toNat = 12 then ['\\', 'f']
  else if c.toNat < 32 then
    ['\\', 'u', '0', '0', hexDigitChar (c.toNat / 16), hexDigitChar (c.toNat % 16)]
  else [c]

/-- JSON string literal for `s`: opening quote, escaped characters, closing
quote. -/
def encodeStr (s : String) : List Char :=
  ('"' :: s.data.flatMap escapeChar) ++ ['"']

/-- Decimal digits of `n`, most significant first, prepended to `acc`. -/
def natToDecAux (n : Nat) (acc : List Char) : List Char :=
  let acc' := Char.ofNat (48 + n % 10) :: acc
  if n < 10 then acc' else natToDecAux (n / 10) acc'
  termination_by n
  decreasing_by exact Nat.div_lt_self (by omega) (by omega)

/-- Decimal representation of a natural number, as `JSON.stringify` emits a
nonnegative integer. -/
def natToDecimal (n : Nat) : List Char :=
  natToDecAux n []

/-- Base-36 digit (0-9 then a-z), as used by `Number.prototype.toString(36)`. -/
def digit36 (d : Nat) : Char :=
  if d < 10 then Char.ofNat (48 + d) else Char.ofNat (87 + d)

/-- Base-36 digits of `n`, most significant first, prepended to `acc`. -/
def natTo36Aux (n : Nat) (acc : List Char) : List Char :=
  let acc' := digit36 (n % 36) :: acc
  if n < 36 then acc' else natTo36Aux (n / 36) acc'
  termination_by n
  decreasing_by exact Nat.div_lt_self (by omega) (by omega)

/-- `n.toString(36)` for a nonnegative integer `n`. -/
def natToBase36 (n : Nat) : String :=
  String.mk (natTo36Aux n [])

/-- Fresh id generation: `Date.now().toString(36) +
Math.random().toString(36).slice(2)`, with the random suffix abstracted as
the string `rand`. -/
def genId (now : Nat) (rand : String) : String :=
  natToBase36 now ++ rand

/-- Characters opening a serialized note object up to the value of `id`:
`{"id":` (`JSON.stringify` emits keys in property order
id, title, body, created, updated, with no whitespace). -/
def objIdKey : List Char :=
  ['\x7b', '"', 'i', 'd', '"', ':']

/-- The serialized `,"title":` key. -/
def titleKey : List Char :=
  [',', '"', 't', 'i', 't', 'l', 'e', '"', ':']

/-- The serialized `,"body":` key. -/
def bodyKey : List Char :=
  [',', '"', 'b', 'o', 'd', 'y', '"', ':']

/-- The serialized `,"created":` key. -/
def createdKey : List Char :=
  [',', '"', 'c', 'r', 'e', 'a', 't', 'e', 'd', '"', ':']

/-- The serialized `,"updated":` key. -/
def updatedKey : List Char :=
  [',', '"', 'u', 'p', 'd', 'a', 't', 'e', 'd', '"', ':']

/-- `JSON.stringify` of one note object. -/
def encodeNote (n : Note) : List Char :=
  objIdKey ++ encodeStr n.id ++ titleKey ++ encodeStr n.title ++
    bodyKey ++ encodeStr n.body ++ createdKey ++ natToDecimal n.created ++
    updatedKey ++ natToDecimal n.updated ++ ['\x7d']

/-- Comma-separated serialized note objects (the body of the JSON array). -/
def encodeNotesBody : List Note → List Char
  | [] => []
  | [n] => encodeNote n
  | n :: ns => encodeNote n ++ (',' :: encodeNotesBody ns)

/-- `JSON.stringify(notes)`: the serialized JSON array of note objects. -/
def encodeNotes (ns : List Note) : List Char :=
  ('[' :: encodeNotesBody ns) ++ [']']

/-- `JSON.stringify(notes)` as a `String`. -/
def stringifyNotes (ns : List Note) : String :=
  String.mk (encodeNotes ns)

/-! ## JSON parsing (`JSON.parse` of a stored note collection)

`JSON.parse(saved) as Note[]` in `loadNotes` performs no runtime validation;
the parser below accepts exactly the canonical serialization that
`JSON.stringify` writes for a note array, and fails (`none`) on anything
else, which `loadNotes` turns into the empty collection. -/

/-- Value of a hexadecimal digit character, `none` if not a hex digit. -/
def hexVal (c : Char) : Option Nat :=
  if 48 ≤ c.toNat ∧ c.toNat ≤ 57 then some (c.toNat - 48)
  else if 97 ≤ c.toNat ∧ c.toNat ≤ 102 then some (c.toNat - 87)
  else if 65 ≤ c.toNat ∧ c.toNat ≤ 70 then some (c.toNat - 55)
  else none

/-- Single-character JSON escapes other than `\uXXXX`. -/
def escDecode (c : Char) : Option Char :=
  if c = '"' then some '"'
  else if c = '\\' then some '\\'
  else if c = '/' then some '/'
  else if c = 'b' then some (Char.ofNat 8)
  else if c = 'f' then some (Char.ofNat 12)
  else if c = 'n' then some '\n'
  else if c = 'r' then some '\r'
  else if c = 't' then some '\t'
  else none

/-- Parses the characters of a JSON string literal after the opening quote,
up to and past the closing quote; returns the decoded characters and the
remaining input.  Raw control characters are rejected, escapes are decoded,
and a `\uXXXX` escape must denote a Unicode scalar value. -/
def parseStrChars : List Char → Option (List Char × List Char)
  | [] => none
  | '"' :: rest => some ([], rest)
  | '\\' :: 'u' :: h1 :: h2 :: h3 :: h4 :: rest =>
    match hexVal h1, hexVal h2, hexVal h3, hexVal h4 with
    | some v1, some v2, some v3, some v4 =>
      let n := ((v1 * 16 + v2) * 16 + v3) * 16 + v4
      if n < 55296 ∨ (57344 ≤ n ∧ n < 1114112) then
        (parseStrChars rest).map (fun p => (Char.ofNat n :: p.1, p.2))
      else none
    | _, _, _, _ => none
  | '\\' :: e :: rest =>
    match escDecode e with
    | some d => (parseStrChars rest).map (fun p => (d :: p.1, p.2))
    | none => none
  | c :: rest =>
    if c.toNat < 32 then none
    else (parseStrChars rest).map (fun p => (c :: p.1, p.2))

/-- Parses a JSON string literal (including the opening quote). -/
def parseJStr : List Char → Option (String × List Char)
  | '"' :: rest => (parseStrChars rest).map (fun p => (String.mk p.1, p.2))
  | _ => none

/-- Consumes a maximal run of decimal digits, folding them onto `acc`. -/
def parseDigits (acc : Nat) : List Char → Nat × List Char
  | [] => (acc, [])
  | c :: cs =>
    if 48 ≤ c.toNat ∧ c.toNat ≤ 57 then parseDigits (acc * 10 + (c.toNat - 48)) cs
    else (acc, c :: cs)

/-- Parses a nonnegative JSON integer (at least one decimal digit). -/
def parseNumber : List Char → Option (Nat × List Char)
  | [] => none
  | c :: cs =>
    if 48 ≤ c.toNat ∧ c.toNat ≤ 57 then some (parseDigits (c.toNat - 48) cs)
    else none

/-- Consumes the expected literal characters `p` from the front of the
input. -/
def consume : List Char → List Char → Option (List Char)
  | [], cs => some cs
  | _ :: _, [] => none
  | p :: ps, c :: cs => if c = p then consume ps cs else none

/-- Parses one serialized note object (canonical key order, no
whitespace). -/
def parseNoteObj (cs : List Char) : Option (Note × List Char) := do
  let cs ← consume objIdKey cs
  let (id, cs) ← parseJStr cs
  let cs ← consume titleKey cs
  let (title, cs) ← parseJStr cs
  let cs ← consume bodyKey cs
  let (body, cs) ← parseJStr cs
  let cs ← consume createdKey cs
  let (created, cs) ← parseNumber cs
  let cs ← consume updatedKey cs
  let (updated, cs) ← parseNumber cs
  let cs ← consume ['\x7d'] cs
  pure (⟨id, title, body, created, updated⟩, cs)

/-- Parses the comma-separated elements of a nonempty serialized note array,
up to and past the closing bracket.  `fuel` bounds the number of elements;
each element consumes input, so the input length is always enough fuel. -/
def parseElemsAux : Nat → List Char → Option (List Note × List Char)
  | 0, _ => none
  | fuel + 1, cs =>
    match parseNoteObj cs with
    | none => none
    | some (n, rest) =>
      match rest with
      | ',' :: rest2 => (parseElemsAux fuel rest2).map (fun p => (n :: p.1, p.2))
      | ']' :: rest2 => some ([n], rest2)
      | _ => none

/-- Parses a serialized note array (canonical format). -/
def parseNotesArr (cs : List Char) : Option (List Note × List Char) :=
  match cs with
  | '[' :: ']' :: rest => some ([], rest)
  | '[' :: rest => parseElemsAux rest.length rest
  | _ => none

/-- `JSON.parse(saved) as Note[]`: succeeds exactly on the canonical
serialization of a note collection, consuming the whole string. -/
def parseNotes (s : String) : Option (List Note) :=
  match parseNotesArr s.data with
  | some (ns, []) => some ns
  | _ => none

/-! ## General JSON values and `JSON.parse` itself

The round-trip claims only exercise `JSON.parse` on canonical output of
`JSON.stringify`, which `parseNotes` covers.  The load path, however, feeds
`JSON.parse` arbitrary stored strings, and the result of a successful parse
is returned through the unchecked `as Note[]` cast with no runtime shape
validation.  The model below captures that faithfully: `Json` is the type of
JavaScript JSON values, `parseJson` accepts exactly the JSON grammar that
`JSON.parse` accepts (whitespace between tokens, all escape forms including
arbitrary `\uXXXX` code units, full number syntax, nested arrays and
objects), and `loadNotesJson` is what `loadNotes` actually returns as a
JavaScript value.  String contents are kept as code units (`List Nat`)
because `JSON.parse` accepts lone-surrogate escapes; number values keep
their lexeme, since no claim depends on numeric semantics. -/

/-- A JavaScript JSON value as produced by `JSON.parse`. -/
inductive Json where
  | null : Json
  | bool : Bool → Json
  | num : List Char → Json
  | str : List Nat → Json
  | arr : List Json → Json
  | obj : List (List Nat × Json) → Json

/-- Skips the JSON whitespace characters (space, tab, line feed, carriage
return) that `JSON.parse` allows between tokens. -/
def skipWs : List Char → List Char
  | c :: cs =>
    if c = ' ' ∨ c = '\t' ∨ c = '\n' ∨ c = '\r' then skipWs cs else c :: cs
  | [] => []

/-- Parses the contents of a JSON string literal after the opening quote
into code units.  Unlike `parseStrChars` this performs no scalar-value
check on `\uXXXX`: `JSON.parse` accepts any four hex digits, lone
surrogates included. -/
def parseJStrUnits : List Char → Option (List Nat × List Char)
  | [] => none
  | '"' :: rest => some ([], rest)
  | '\\' :: 'u' :: h1 :: h2 :: h3 :: h4 :: rest =>
    match hexVal h1, hexVal h2, hexVal h3, hexVal h4 with
    | some v1, some v2, some v3, some v4 =>
      (parseJStrUnits rest).map (fun p => ((((v1 * 16 + v2) * 16 + v3) * 16 + v4) :: p.1, p.2))
    | _, _, _, _ => none
  | '\\' :: e :: rest =>
    match escDecode e with
    | some d => (parseJStrUnits rest).map (fun p => (d.toNat :: p.1, p.2))
    | none => none
  | c :: rest =>
    if c.toNat < 32 then none
    else (parseJStrUnits rest).map (fun p => (c.toNat :: p.1, p.2))

/-- Longest prefix of decimal digits, with the remaining input. -/
def spanDigits : List Char → List Char × List Char
  | c :: cs =>
    if 48 ≤ c.toNat ∧ c.toNat ≤ 57 then
      let p := spanDigits cs
      (c :: p.1, p.2)
    else ([], c :: cs)
  | [] => ([], [])

/-- The integer part of a JSON number: `0`, or a nonzero digit followed by
digits (leading zeros are not allowed by the grammar). -/
def parseIntPart : List Char → Option (List Char × List Char)
  | '0' :: rest => some (['0'], rest)
  | c :: rest =>
    if 49 ≤ c.toNat ∧ c.toNat ≤ 57 then
      let p := spanDigits rest
      some (c :: p.1, p.2)
    else none
  | [] => none

/-- The optional fraction part `.digits`; a dot not followed by a digit is
left unconsumed (the surrounding context then rejects it, as `JSON.parse`
does). -/
def parseFracPart (cs : List Char) : List Char × List Char :=
  match cs with
  | '.' :: rest =>
    match spanDigits rest with
    | ([], _) => ([], cs)
    | (ds, rest2) => ('.' :: ds, rest2)
  | _ => ([], cs)

/-- The optional exponent part `[eE][+-]?digits`; an exponent marker without
digits is left unconsumed. -/
def parseExpPart (cs : List Char) : List Char × List Char :=
  match cs with
  | e :: rest =>
    if e = 'e' ∨ e = 'E' then
      match rest with
      | sg :: rest2 =>
        if sg = '+' ∨ sg = '-' then
          match spanDigits rest2 with
          | ([], _) => ([], cs)
          | (ds, rest3) => (e :: sg :: ds, rest3)
        else
          match spanDigits rest with
          | ([], _) => ([], cs)
          | (ds, rest3) => (e :: ds, rest3)
      | [] => ([], cs)
    else ([], cs)
  | [] => ([], [])

/-- A JSON number lexeme: optional minus sign, integer part, optional
fraction, optional exponent. -/
def parseJsonNum (cs : List Char) : Option (List Char × List Char) :=
  match cs with
  | '-' :: rest =>
    match parseIntPart rest with
    | none => none
    | some (ip, rest2) =>
      let fp := parseFracPart rest2
      let ep := parseExpPart fp.2
      some ('-' :: ip ++ fp.1 ++ ep.1, ep.2)
  | _ =>
    match parseIntPart cs with
    | none => none
    | some (ip, rest2) =>
      let fp := parseFracPart rest2
      let ep := parseExpPart fp.2
      some (ip ++ fp.1 ++ ep.1, ep.2)

/-- The recursive core of `JSON.parse`.  `mode` 0 parses one value, mode 1
the comma-separated elements of a nonempty array up to `]` (returned as
`Json.arr`), mode 2 the members of a nonempty object up to the closing
brace (returned as `Json.obj`).  `fuel` only bounds the recursion depth;
each recursive step consumes input, so the generous bound passed in by
`parseJson` can never run out on an accepted input. -/
def parseJsonCore (fuel : Nat) (mode : Nat) (cs : List Char) : Option (Json × List Char) :=
  match fuel with
  | 0 => none
  | fuel + 1 =>
    if mode = 1 then
      match parseJsonCore fuel 0 cs with
      | none => none
      | some (v, rest) =>
        match skipWs rest with
        | ',' :: rest2 =>
          match parseJsonCore fuel 1 rest2 with
          | some (Json.arr vs, rest3) => some (Json.arr (v :: vs), rest3)
          | _ => none
        | ']' :: rest2 => some (Json.arr [v], rest2)
        | _ => none
    else if mode = 2 then
      match skipWs cs with
      | '"' :: rest =>
        match parseJStrUnits rest with
        | none => none
        | some (key, rest2) =>
          match skipWs rest2 with
          | ':' :: rest3 =>
            match parseJsonCore fuel 0 rest3 with
            | none => none
            | some (v, rest4) =>
              match skipWs rest4 with
              | ',' :: rest5 =>
                match parseJsonCore fuel 2 rest5 with
                | some (Json.obj ms, rest6) => some (Json.obj ((key, v) :: ms), rest6)
                | _ => none
              | '\x7d' :: rest5 => some (Json.obj [(key, v)], rest5)
              | _ => none
          | _ => none
      | _ => none
    else
      match skipWs cs with
      | [] => none
      | c :: rest =>
        if c = '"' then (parseJStrUnits rest).map (fun p => (Json.str p.1, p.2))
        else if c = '[' then
          match skipWs rest with
          | ']' :: r2 => some (Json.arr [], r2)
          | r2 => parseJsonCore fuel 1 r2
        else if c = '\x7b' then
          match skipWs rest with
          | '\x7d' :: r2 => some (Json.obj [], r2)
          | r2 => parseJsonCore fuel 2 r2
        else if c = 't' then (consume ['r', 'u', 'e'] rest).map (fun r => (Json.bool true, r))
        else if c = 'f' then
          (consume ['a', 'l', 's', 'e'] rest).map (fun r => (Json.bool false, r))
        else if c = 'n' then (consume ['u', 'l', 'l'] rest).map (fun r => (Json.null, r))
        else (parseJsonNum (c :: rest)).map (fun p => (Json.num p.1, p.2))

/-- `JSON.parse(s)`: `some` of the parsed value, `none` when `JSON.parse`
throws a syntax error.  The fuel bound exceeds the recursion any input of
this length can cause (each nesting level consumes at least one character,
and at most two recursion steps happen per consumed character). -/
def parseJson (s : String) : Option Json :=
  match parseJsonCore (2 * s.data.length + 4) 0 s.data with
  | some (v, rest) => if skipWs rest = [] then some v else none
  | none => none

/-- Code units of an ASCII field name, for object lookup. -/
def keyUnits (s : String) : List Nat :=
  s.data.map Char.toNat

/-- First binding of a key in a parsed object. -/
def lookupField (fields : List (List Nat × Json)) (key : List Nat) : Option Json :=
  match fields with
  | [] => none
  | (k, v) :: rest => if k = key then some v else lookupField rest key

/-- Code units back to a string, failing on lone surrogates. -/
def unitsToString (us : List Nat) : Option String :=
  (us.mapM (fun u =>
    if u < 55296 ∨ (57344 ≤ u ∧ u < 1114112) then some (Char.ofNat u) else none)).map
    String.mk

/-- A number lexeme read as a nonnegative integer (the form timestamps
take), `none` otherwise. -/
def decNatOfLexeme (lx : List Char) : Option Nat :=
  if lx ≠ [] ∧ lx.all (fun c => decide (48 ≤ c.toNat) && decide (c.toNat ≤ 57)) = true then
    some (lx.foldl (fun a c => a * 10 + (c.toNat - 48)) 0)
  else none

/-- The `Note` shape that the cast `as Note[]` asserts of one element but
never checks: an object whose `id`, `title`, `body` are strings and whose
`created`, `updated` are integer numbers. -/
def jsonToNote (j : Json) : Option Note :=
  match j with
  | Json.obj fields =>
    match lookupField fields (keyUnits "id"), lookupField fields (keyUnits "title"),
        lookupField fields (keyUnits "body"), lookupField fields (keyUnits "created"),
        lookupField fields (keyUnits "updated") with
    | some (Json.str i), some (Json.str t), some (Json.str b),
        some (Json.num cr), some (Json.num up) =>
      match unitsToString i, unitsToString t, unitsToString b,
          decNatOfLexeme cr, decNatOfLexeme up with
      | some i2, some t2, some b2, some cr2, some up2 =>
        some (Note.mk i2 t2 b2 cr2 up2)
      | _, _, _, _, _ => none
    | _, _, _, _, _ => none
  | _ => none

/-- Whether a JSON value denotes a note collection: the `Note[]` shape the
cast asserts.  Used to state that a stored string is malformed as a note
collection. -/
def jsonToNotes (j : Json) : Option (List Note) :=
  match j with
  | Json.arr elems => elems.mapM jsonToNote
  | _ => none

/-- What `loadNotes` actually returns as a JavaScript value: the empty
array when the key is absent or the stored string falsy, the raw result of
`JSON.parse` when it succeeds (the `as Note[]` cast performs no runtime
check, so any JSON value passes through), and the empty array when
`JSON.parse` throws (the `catch` branch). -/
def loadNotesJson (store : Option String) : Json :=
  match store with
  | none => Json.arr []
  | some saved =>
    if saved = "" then Json.arr []
    else
      match parseJson saved with
      | some v => v
      | none => Json.arr []

/-! ## Component state and operations -/

/-- The reactive state of the component together with the persistent store:
`notes` (the `ref<Note[]>`), `currentNoteId` (the `ref<string | null>`),
`dirty` (the `ref<boolean>`), and `store`, the value of the `localStorage`
key `'notes'` (`none` when the key is absent). -/
structure AppState where
  notes : List Note
  currentNoteId : Option String
  dirty : Bool
  store : Option String
  deriving DecidableEq

/-- The state before any note exists and before anything was persisted. -/
def initialState : AppState :=
  { notes := [], currentNoteId := none, dirty := false, store := none }

/-- The computed `currentNote`: `null` when `currentNoteId` is falsy (JS
`!currentNoteId.value` is true both for `null` and for the empty string),
otherwise the first note whose `id` strictly equals it, or `null`. -/
def currentNote (s : AppState) : Option Note :=
  match s.currentNoteId with
  | none => none
  | some cid =>
    if cid = "" then none
    else s.notes.find? (fun n => n.id == cid)

/-- `persistNotes()`: `localStorage.setItem('notes',
JSON.stringify(notes.value))` (client-side). -/
def persistNotes (s : AppState) : AppState :=
  { s with store := some (stringifyNotes s.notes) }

/-- `loadNotes()`: reads the stored string; a falsy value (key absent or
empty string) gives `[]`, and a string `JSON.parse` rejects gives `[]` via
the `catch`. -/
def loadNotes (store : Option String) : List Note :=
  match store with
  | none => []
  | some saved =>
    if saved = "" then []
    else
      match parseNotes saved with
      | some ns => ns
      | none => []

/-- `selectNote(id)`: if `dirty` and the confirmation dialog is declined,
return without changes; otherwise set the current id and clear `dirty`. -/
def selectNote (s : AppState) (confirm : Bool) (id : String) : AppState :=
  if s.dirty && !confirm then s
  else { s with currentNoteId := some id, dirty := false }

/-- The note `createNewNote` builds at instant `now` with random suffix
`rand`: fresh id, empty title and body, `created = updated = now`. -/
def mkNewNote (now : Nat) (rand : String) : Note :=
  { id := genId now rand, title := "", body := "", created := now, updated := now }

/-- `createNewNote()`: after the dirty-confirmation guard, unshift the new
note, persist, make it current, clear `dirty`. -/
def createNewNote (s : AppState) (confirm : Bool) (now : Nat) (rand : String) : AppState :=
  if s.dirty && !confirm then s
  else
    let note := mkNewNote now rand
    let s1 := persistNotes { s with notes := note :: s.notes }
    { s1 with currentNoteId := some note.id, dirty := false }

/-- Removes the first element satisfying `p`, which is what
`findIndex` followed by `splice(idx, 1)` does. -/
def removeFirst (p : Note → Bool) : List Note → List Note
  | [] => []
  | n :: ns => if p n then ns else n :: removeFirst p ns

/-- Replaces the first element satisfying `p` by `f` of it; assigning
`notes.value[idx] = x` at the first matching index `idx`, or mutating the
object `find` returned, are both of this form. -/
def updateFirst (p : Note → Bool) (f : Note → Note) : List Note → List Note
  | [] => []
  | n :: ns => if p n then f n :: ns else n :: updateFirst p f ns

/-- First block of `deleteNote`: if a note with this id exists (`findIndex`
not `-1`), splice it out and persist; otherwise leave the state alone. -/
def removeAndPersist (s : AppState) (id : String) : AppState :=
  if s.notes.any (fun n => n.id == id) then
    persistNotes { s with notes := removeFirst (fun n => n.id == id) s.notes }
  else s

/-- Second block of `deleteNote`: if the deleted id was the current one, the
current id becomes the id of the (new) first note (`notes.value[0]?.id ??
null`), and `dirty` is cleared. -/
def fixupCurrent (s : AppState) (id : String) : AppState :=
  if s.currentNoteId = some id then
    { s with currentNoteId := s.notes.head?.map Note.id, dirty := false }
  else s

/-- `deleteNote(id)`: abort if the confirmation is declined; otherwise
remove-and-persist, then fix up the current id. -/
def deleteNote (s : AppState) (confirm : Bool) (id : String) : AppState :=
  if !confirm then s
  else fixupCurrent (removeAndPersist s id) id

/-- `updateCurrentNote()` (the `@input` handler): no-op without a current
note; otherwise stamp `updated = now` on the current note object — the first
entry of `notes` with the current id — and set `dirty`. -/
def updateCurrentNote (s : AppState) (now : Nat) : AppState :=
  match currentNote s with
  | none => s
  | some cur =>
    { s with
      notes := updateFirst (fun n => n.id == cur.id) (fun n => { n with updated := now }) s.notes,
      dirty := true }

/-- The `v-model` write of an edit gesture: the template binds
`currentNote.title` / `currentNote.body`, so typing writes the new field
value through the computed reference into the note object stored in
`notes`. -/
def writeModel (s : AppState) (newTitle newBody : Option String) : AppState :=
  match currentNote s with
  | none => s
  | some cur =>
    { s with
      notes := updateFirst (fun n => n.id == cur.id)
        (fun n => { n with title := newTitle.getD n.title, body := newBody.getD n.body })
        s.notes }

/-- One whole edit gesture on the current note, as observable after the
event settles: the `v-model` write, then `updateCurrentNote`, then the flush
of `watch(notes, persistNotes, deep)` — the deep watcher fires because the
note object inside `notes` was mutated, and it runs before any further user
action.  No-op when no note is current (nothing is bound, nothing fires). -/
def edit (s : AppState) (newTitle newBody : Option String) (now : Nat) : AppState :=
  match currentNote s with
  | none => s
  | some _ => persistNotes (updateCurrentNote (writeModel s newTitle newBody) now)

/-- `saveCurrentNote()`: no-op without a current note; look up the index of
the current id (`findIndex`); if found (not `-1`), write a copy of the
current note at that index, persist, clear `dirty`. -/
def saveCurrentNote (s : AppState) : AppState :=
  match currentNote s with
  | none => s
  | some cur =>
    if s.notes.any (fun n => n.id == cur.id) then
      persistNotes
        { s with
          notes := updateFirst (fun n => n.id == cur.id) (fun _ => cur) s.notes,
          dirty := false }
    else s

/-- A sequence of `createNewNote` events, each given by its instant and its
random suffix, applied in order. -/
def createAll (evs : List (Nat × String)) (s : AppState) : AppState :=
  evs.foldl (fun s e => createNewNote s true e.1 e.2) s

/-! ## Round-trip lemmas for the serialization format -/

theorem char_toNat_ofNat_lt (m : Nat) (h : m < 55296) : (Char.ofNat m).toNat = m := by
  have hv : m.isValidChar := Or.inl h
  unfold Char.ofNat
  rw [dif_pos hv]
  rfl

theorem consume_append (p rest : List Char) : consume p (p ++ rest) = some rest := by
  induction p with
  | nil => rfl
  | cons c p ih => simp [consume, ih]

theorem hexVal_hexDigitChar : ∀ d : Nat, d < 16 → hexVal (hexDigitChar d) = some d := by
  decide

theorem parseStrChars_cons_plain (c : Char) (t : List Char) (h1 : c ≠ '"') (h2 : c ≠ '\\')
    (h3 : ¬c.toNat < 32) :
    parseStrChars (c :: t) = (parseStrChars t).map (fun p => (c :: p.1, p.2)) := by
  rw [parseStrChars.eq_def]
  split <;> simp_all

theorem parseStrChars_u (h1 h2 h3 h4 : Char) (t : List Char) :
    parseStrChars ('\\' :: 'u' :: h1 :: h2 :: h3 :: h4 :: t) =
      match hexVal h1, hexVal h2, hexVal h3, hexVal h4 with
      | some v1, some v2, some v3, some v4 =>
        let n := ((v1 * 16 + v2) * 16 + v3) * 16 + v4
        if n < 55296 ∨ (57344 ≤ n ∧ n < 1114112) then
          (parseStrChars t).map (fun p => (Char.ofNat n :: p.1, p.2))
        else none
      | _, _, _, _ => none := rfl

theorem parseStrChars_bq (t : List Char) :
    parseStrChars ('\\' :: '"' :: t) = (parseStrChars t).map (fun p => ('"' :: p.1, p.2)) := rfl

theorem parseStrChars_bb (t : List Char) :
    parseStrChars ('\\' :: '\\' :: t) =
      (parseStrChars t).map (fun p => ('\\' :: p.1, p.2)) := rfl

theorem parseStrChars_bn (t : List Char) :
    parseStrChars ('\\' :: 'n' :: t) = (parseStrChars t).map (fun p => ('\n' :: p.1, p.2)) := rfl

theorem parseStrChars_br (t : List Char) :
    parseStrChars ('\\' :: 'r' :: t) = (parseStrChars t).map (fun p => ('\r' :: p.1, p.2)) := rfl

theorem parseStrChars_bt (t : List Char) :
    parseStrChars ('\\' :: 't' :: t) = (parseStrChars t).map (fun p => ('\t' :: p.1, p.2)) := rfl

theorem parseStrChars_b8 (t : List Char) :
    parseStrChars ('\\' :: 'b' :: t) =
      (parseStrChars t).map (fun p => (Char.ofNat 8 :: p.1, p.2)) := rfl

theorem parseStrChars_b12 (t : List Char) :
    parseStrChars ('\\' :: 'f' :: t) =
      (parseStrChars t).map (fun p => (Char.ofNat 12 :: p.1, p.2)) := rfl

theorem parseStrChars_u00 (v3 v4 : Nat) (h3 : v3 < 16) (h4 : v4 < 16) (t : List Char) :
    parseStrChars ('\\' :: 'u' :: '0' :: '0' :: hexDigitChar v3 :: hexDigitChar v4 :: t) =
      (parseStrChars t).map (fun p => (Char.ofNat (v3 * 16 + v4) :: p.1, p.2)) := by
  rw [parseStrChars_u, hexVal_hexDigitChar v3 h3, hexVal_hexDigitChar v4 h4]
  rw [show hexVal '0' = some 0 from by decide]
  dsimp only
  have hv : ((0 * 16 + 0) * 16 + v3) * 16 + v4 = v3 * 16 + v4 := by omega
  rw [hv, if_pos (Or.inl (by omega))]

theorem parseStrChars_escapeChar (c : Char) (X : List Char) :
    parseStrChars (escapeChar c ++ X) = (parseStrChars X).map (fun p => (c :: p.1, p.2)) := by
  unfold escapeChar
  split_ifs with hq hb hn hr ht h8 h12 hc
  · subst hq
    rw [List.cons_append, List.cons_append, List.nil_append, parseStrChars_bq]
  · subst hb
    rw [List.cons_append, List.cons_append, List.nil_append, parseStrChars_bb]
  · subst hn
    rw [List.cons_append, List.cons_append, List.nil_append, parseStrChars_bn]
  · subst hr
    rw [List.cons_append, List.cons_append, List.nil_append, parseStrChars_br]
  · subst ht
    rw [List.cons_append, List.cons_append, List.nil_append, parseStrChars_bt]
  · rw [List.cons_append, List.cons_append, List.nil_append, parseStrChars_b8]
    have hce : Char.ofNat 8 = c := by
      rw [← h8]
      exact Char.ofNat_toNat c
    rw [hce]
  · rw [List.cons_append, List.cons_append, List.nil_append, parseStrChars_b12]
    have hce : Char.ofNat 12 = c := by
      rw [← h12]
      exact Char.ofNat_toNat c
    rw [hce]
  · rw [List.cons_append, List.cons_append, List.cons_append, List.cons_append,
      List.cons_append, List.cons_append, List.nil_append,
      parseStrChars_u00 (c.toNat / 16) (c.toNat % 16) (by omega) (by omega)]
    have hv : c.toNat / 16 * 16 + c.toNat % 16 = c.toNat := by omega
    rw [hv, Char.ofNat_toNat]
  · rw [List.cons_append, List.nil_append, parseStrChars_cons_plain c _ hq hb hc]

theorem parseStrChars_escape (cs rest : List Char) :
    parseStrChars (cs.flatMap escapeChar ++ ('"' :: rest)) = some (cs, rest) := by
  induction cs with
  | nil => simp [parseStrChars]
  | cons c cs ih =>
    rw [List.flatMap_cons, List.append_assoc, parseStrChars_escapeChar, ih]
    rfl

theorem natToDecAux_append (n : Nat) : ∀ acc : List Char,
    natToDecAux n acc = natToDecAux n [] ++ acc := by
  induction n using Nat.strong_induction_on with
  | _ n ih =>
    intro acc
    conv_lhs => rw [natToDecAux.eq_def]
    conv_rhs => rw [natToDecAux.eq_def]
    dsimp only
    by_cases h : n < 10
    · rw [if_pos h, if_pos h]
      simp
    · have hlt : n / 10 < n := Nat.div_lt_self (by omega) (by omega)
      rw [if_neg h, if_neg h,
        ih (n / 10) hlt (Char.ofNat (48 + n % 10) :: acc),
        ih (n / 10) hlt (Char.ofNat (48 + n % 10) :: ([] : List Char))]
      simp

theorem natToDecAux_digits (n : Nat) :
    ∀ c ∈ natToDecAux n [], 48 ≤ c.toNat ∧ c.toNat ≤ 57 := by
  induction n using Nat.strong_induction_on with
  | _ n ih =>
    intro c hc
    rw [natToDecAux.eq_def] at hc
    dsimp only at hc
    by_cases h : n < 10
    · rw [if_pos h] at hc
      simp only [List.mem_singleton] at hc
      subst hc
      rw [char_toNat_ofNat_lt (48 + n % 10) (by omega)]
      omega
    · have hlt : n / 10 < n := Nat.div_lt_self (by omega) (by omega)
      rw [if_neg h, natToDecAux_append (n / 10)] at hc
      rcases List.mem_append.mp hc with hmem | hmem
      · exact ih (n / 10) hlt c hmem
      · simp only [List.mem_singleton] at hmem
        subst hmem
        rw [char_toNat_ofNat_lt (48 + n % 10) (by omega)]
        omega

theorem natToDecAux_ne_nil (n : Nat) : natToDecAux n [] ≠ [] := by
  rw [natToDecAux.eq_def]
  dsimp only
  by_cases h : n < 10
  · rw [if_pos h]
    simp
  · rw [if_neg h, natToDecAux_append (n / 10)]
    simp

theorem foldl_natToDecAux (n : Nat) : ∀ a : Nat,
    (natToDecAux n []).foldl (fun x c => x * 10 + (c.toNat - 48)) a =
      a * 10 ^ (natToDecAux n []).length + n := by
  induction n using Nat.strong_induction_on with
  | _ n ih =>
    intro a
    conv_lhs => rw [natToDecAux.eq_def]
    conv_rhs => rw [natToDecAux.eq_def]
    dsimp only
    by_cases h : n < 10
    · rw [if_pos h]
      simp only [List.foldl_cons, List.foldl_nil, List.length_singleton, pow_one]
      rw [char_toNat_ofNat_lt (48 + n % 10) (by omega)]
      omega
    · have hlt : n / 10 < n := Nat.div_lt_self (by omega) (by omega)
      rw [if_neg h, natToDecAux_append (n / 10), List.foldl_append,
        ih (n / 10) hlt a]
      simp only [List.foldl_cons, List.foldl_nil, List.length_append,
        List.length_singleton]
      rw [char_toNat_ofNat_lt (48 + n % 10) (by omega)]
      rw [pow_succ]
      have : a * (10 ^ (natToDecAux (n / 10) []).length * 10) =
          a * 10 ^ (natToDecAux (n / 10) []).length * 10 := by ring
      rw [this]
      omega

theorem parseDigits_append (ds : List Char) (hds : ∀ c ∈ ds, 48 ≤ c.toNat ∧ c.toNat ≤ 57)
    (rest : List Char) (hrest : ∀ c t, rest = c :: t → ¬(48 ≤ c.toNat ∧ c.toNat ≤ 57)) :
    ∀ a, parseDigits a (ds ++ rest) =
      (ds.foldl (fun x c => x * 10 + (c.toNat - 48)) a, rest) := by
  induction ds with
  | nil =>
    intro a
    simp only [List.nil_append, List.foldl_nil]
    cases rest with
    | nil => rfl
    | cons c t =>
      have hnd := hrest c t rfl
      simp [parseDigits, hnd]
  | cons d ds ih =>
    intro a
    have hd := hds d (by simp)
    have step : ∀ (a : Nat) (c : Char) (cs : List Char), parseDigits a (c :: cs) =
        if 48 ≤ c.toNat ∧ c.toNat ≤ 57 then parseDigits (a * 10 + (c.toNat - 48)) cs
        else (a, c :: cs) := fun _ _ _ => rfl
    rw [List.cons_append, step, if_pos hd, ih (fun c hc => hds c (by simp [hc]))]
    simp

theorem parseNumber_natToDecimal (n : Nat) (rest : List Char)
    (hrest : ∀ c t, rest = c :: t → ¬(48 ≤ c.toNat ∧ c.toNat ≤ 57)) :
    parseNumber (natToDecimal n ++ rest) = some (n, rest) := by
  have hdig : ∀ c ∈ natToDecimal n, 48 ≤ c.toNat ∧ c.toNat ≤ 57 := natToDecAux_digits n
  obtain ⟨d, ds, hds⟩ : ∃ d ds, natToDecimal n = d :: ds := by
    cases hh : natToDecimal n with
    | nil => exact absurd hh (natToDecAux_ne_nil n)
    | cons d ds => exact ⟨d, ds, rfl⟩
  have hd := hdig d (by rw [hds]; simp)
  have hfold := foldl_natToDecAux n 0
  rw [show natToDecAux n [] = natToDecimal n from rfl, hds] at hfold
  simp only [List.foldl_cons, Nat.zero_mul, Nat.zero_add, List.length_cons,
    Nat.zero_mul] at hfold
  have step : ∀ (c : Char) (cs : List Char), parseNumber (c :: cs) =
      if 48 ≤ c.toNat ∧ c.toNat ≤ 57 then some (parseDigits (c.toNat - 48) cs)
      else none := fun _ _ => rfl
  rw [hds, List.cons_append, step, if_pos hd,
    parseDigits_append ds (fun c hc => hdig c (by rw [hds]; simp [hc])) rest hrest]
  rw [hfold]

theorem parseJStr_encodeStr (s : String) (rest : List Char) :
    parseJStr (encodeStr s ++ rest) = some (s, rest) := by
  have : encodeStr s ++ rest = '"' :: (s.data.flatMap escapeChar ++ ('"' :: rest)) := by
    simp [encodeStr]
  rw [this]
  show (parseStrChars (s.data.flatMap escapeChar ++ ('"' :: rest))).map
      (fun p => (String.mk p.1, p.2)) = some (s, rest)
  rw [parseStrChars_escape]
  rfl

theorem updatedKey_no_digit_head (X : List Char) :
    ∀ c t, updatedKey ++ X = c :: t → ¬(48 ≤ c.toNat ∧ c.toNat ≤ 57) := by
  intro c t heq
  rw [show updatedKey ++ X =
    ',' :: (['"', 'u', 'p', 'd', 'a', 't', 'e', 'd', '"', ':'] ++ X) from rfl] at heq
  injection heq with h1 _
  rw [← h1]
  decide

theorem rbrace_no_digit_head (X : List Char) :
    ∀ c t, ('\x7d' :: X) = c :: t → ¬(48 ≤ c.toNat ∧ c.toNat ≤ 57) := by
  intro c t heq
  injection heq with h1 _
  rw [← h1]
  decide

theorem parseNoteObj_encodeNote (n : Note) (rest : List Char) :
    parseNoteObj (encodeNote n ++ rest) = some (n, rest) := by
  have hnum1 : ∀ X : List Char,
      parseNumber (natToDecimal n.created ++ (updatedKey ++ X)) =
        some (n.created, updatedKey ++ X) :=
    fun X => parseNumber_natToDecimal _ _ (updatedKey_no_digit_head X)
  have hnum2 : ∀ X : List Char,
      parseNumber (natToDecimal n.updated ++ ('\x7d' :: X)) =
        some (n.updated, '\x7d' :: X) :=
    fun X => parseNumber_natToDecimal _ _ (rbrace_no_digit_head X)
  simp [parseNoteObj, encodeNote, List.append_assoc, consume_append,
    parseJStr_encodeStr, hnum1, hnum2]
  rfl

theorem encodeNote_head (n : Note) : ∃ t, encodeNote n = '\x7b' :: t :=
  ⟨_, rfl⟩

theorem encodeNotesBody_cons_head (n : Note) (ns : List Note) :
    ∃ t, encodeNotesBody (n :: ns) = '\x7b' :: t := by
  cases ns with
  | nil => exact ⟨_, rfl⟩
  | cons m ms => exact ⟨_, rfl⟩

theorem length_le_encodeNotesBody (ns : List Note) :
    ns.length ≤ (encodeNotesBody ns).length := by
  induction ns with
  | nil => simp [encodeNotesBody]
  | cons n ns ih =>
    obtain ⟨t, ht⟩ := encodeNote_head n
    cases ns with
    | nil =>
      simp [encodeNotesBody, ht]
    | cons m ms =>
      rw [show encodeNotesBody (n :: m :: ms) =
        encodeNote n ++ (',' :: encodeNotesBody (m :: ms)) from rfl]
      simp only [List.length_append, List.length_cons, ht]
      simp only [List.length_cons] at ih ⊢
      omega

theorem parseElemsAux_encode (ns : List Note) : ns ≠ [] → ∀ (fuel : Nat),
    ns.length ≤ fuel → ∀ rest : List Char,
    parseElemsAux fuel (encodeNotesBody ns ++ (']' :: rest)) = some (ns, rest) := by
  induction ns with
  | nil => intro h; exact absurd rfl h
  | cons n ns ih =>
    intro _ fuel hfuel rest
    cases fuel with
    | zero => simp at hfuel
    | succ f =>
      cases ns with
      | nil =>
        rw [show encodeNotesBody [n] = encodeNote n from rfl]
        simp [parseElemsAux, parseNoteObj_encodeNote]
      | cons m ms =>
        rw [show encodeNotesBody (n :: m :: ms) =
          encodeNote n ++ (',' :: encodeNotesBody (m :: ms)) from rfl,
          List.append_assoc, List.cons_append]
        have hrec := ih (by simp) f (by simp only [List.length_cons] at hfuel ⊢; omega) rest
        simp [parseElemsAux, parseNoteObj_encodeNote, hrec]

theorem parseNotes_stringify (ns : List Note) : parseNotes (stringifyNotes ns) = some ns := by
  cases ns with
  | nil => rfl
  | cons n ns =>
    obtain ⟨t, ht⟩ := encodeNotesBody_cons_head n ns
    unfold parseNotes stringifyNotes
    rw [show (String.mk (encodeNotes (n :: ns))).data = encodeNotes (n :: ns) from rfl]
    rw [show encodeNotes (n :: ns) =
      '[' :: (encodeNotesBody (n :: ns) ++ (']' :: [])) from by
        simp [encodeNotes]]
    rw [ht, List.cons_append]
    have step : ∀ u : List Char, parseNotesArr ('[' :: '\x7b' :: u) =
        parseElemsAux ('\x7b' :: u).length ('\x7b' :: u) := fun u => rfl
    rw [step, ← List.cons_append, ← ht,
      parseElemsAux_encode (n :: ns) (by simp) _
        (by
          have h1 := length_le_encodeNotesBody (n :: ns)
          simp only [List.length_cons, List.length_append,
            List.length_singleton] at h1 ⊢
          omega) []]

theorem stringifyNotes_ne_empty (ns : List Note) : stringifyNotes ns ≠ "" := by
  intro h
  have hdata : encodeNotes ns = [] := by
    simpa [stringifyNotes] using congrArg String.data h
  simp [encodeNotes] at hdata

/-! ## Lemmas about the component state and operations -/

theorem currentNote_eq_some (s : AppState) (cur : Note) (h : currentNote s = some cur) :
    s.currentNoteId = some cur.id ∧ cur.id ≠ "" ∧
      s.notes.find? (fun n => n.id == cur.id) = some cur := by
  unfold currentNote at h
  match hc : s.currentNoteId with
  | none => rw [hc] at h; exact absurd h (by simp)
  | some cid =>
    rw [hc] at h
    dsimp only at h
    by_cases hid : cid = ""
    · rw [if_pos hid] at h
      exact absurd h (by simp)
    · rw [if_neg hid] at h
      have hcid : cur.id = cid := by
        have := List.find?_some h
        simpa using this
      subst hcid
      exact ⟨rfl, hid, h⟩

theorem natTo36Aux_ne_nil (n : Nat) : ∀ acc : List Char, natTo36Aux n acc ≠ [] := by
  induction n using Nat.strong_induction_on with
  | _ n ih =>
    intro acc
    rw [natTo36Aux.eq_def]
    dsimp only
    by_cases h : n < 36
    · rw [if_pos h]
      simp
    · rw [if_neg h]
      exact ih (n / 36) (Nat.div_lt_self (by omega) (by omega)) _

theorem genId_ne_empty (now : Nat) (rand : String) : genId now rand ≠ "" := by
  unfold genId natToBase36
  intro hcontra
  have hdata : natTo36Aux now [] ++ rand.data = [] := by
    simpa using congrArg String.data hcontra
  rcases List.append_eq_nil.mp hdata with ⟨h1, _⟩
  exact natTo36Aux_ne_nil now [] h1

theorem mkNewNote_id_ne_empty (now : Nat) (rand : String) : (mkNewNote now rand).id ≠ "" :=
  genId_ne_empty now rand

theorem find?_updateFirst (p : Note → Bool) (f : Note → Note) (l : List Note)
    (hpf : ∀ n, p n = true → p (f n) = true) (cur : Note) (h : l.find? p = some cur) :
    (updateFirst p f l).find? p = some (f cur) := by
  induction l with
  | nil => simp [List.find?] at h
  | cons a l ih =>
    by_cases hpa : p a = true
    · rw [List.find?_cons_of_pos _ hpa] at h
      injection h with h
      subst h
      rw [show updateFirst p f (a :: l) = f a :: l from by simp [updateFirst, hpa]]
      exact List.find?_cons_of_pos _ (hpf a hpa)
    · rw [List.find?_cons_of_neg _ hpa] at h
      rw [show updateFirst p f (a :: l) = a :: updateFirst p f l from by
        simp [updateFirst, hpa]]
      rw [List.find?_cons_of_neg _ hpa]
      exact ih h

theorem removeFirst_of_not_mem (p : Note → Bool) (l : List Note)
    (h : ∀ n ∈ l, p n = false) : removeFirst p l = l := by
  induction l with
  | nil => rfl
  | cons a l ih =>
    rw [show removeFirst p (a :: l) = if p a then l else a :: removeFirst p l from rfl]
    rw [if_neg (by simp [h a (by simp)])]
    rw [ih (fun n hn => h n (by simp [hn]))]

theorem removeFirst_no_match (l : List Note) (id : String)
    (hnd : (l.map Note.id).Nodup) :
    ∀ n ∈ removeFirst (fun n => n.id == id) l, (n.id == id) = false := by
  induction l with
  | nil => simp [removeFirst]
  | cons a l ih =>
    rw [List.map_cons, List.nodup_cons] at hnd
    rw [show removeFirst (fun n => n.id == id) (a :: l) =
      if a.id == id then l else a :: removeFirst (fun n => n.id == id) l from rfl]
    by_cases hpa : (a.id == id) = true
    · rw [if_pos hpa]
      intro n hn
      have haid : a.id = id := by simpa using hpa
      have : n.id ≠ id := by
        intro hcontra
        exact hnd.1 (by
          rw [haid, ← hcontra]
          exact List.mem_map_of_mem Note.id hn)
      simpa using this
    · rw [if_neg hpa]
      intro n hn
      rcases List.mem_cons.mp hn with rfl | hn
      · simpa using hpa
      · exact ih hnd.2 n hn

theorem head?_removeFirst_ne (l : List Note) (id : String)
    (hnd : (l.map Note.id).Nodup) :
    (removeFirst (fun n => n.id == id) l).head?.map Note.id ≠ some id := by
  cases hh : (removeFirst (fun n => n.id == id) l).head? with
  | none => simp
  | some hd =>
    have hmem : hd ∈ removeFirst (fun n => n.id == id) l := by
      cases hl : removeFirst (fun n => n.id == id) l with
      | nil => rw [hl] at hh; simp at hh
      | cons a t =>
        rw [hl] at hh
        simp only [List.head?_cons] at hh
        injection hh with hh
        subst hh
        simp [hl]
    have := removeFirst_no_match l id hnd hd hmem
    intro hcontra
    have h2 : hd.id = id := by simpa using hcontra
    rw [h2] at this
    simp at this

theorem createAll_notes (evs : List (Nat × String)) : ∀ s : AppState,
    (createAll evs s).notes = (evs.map (fun e => mkNewNote e.1 e.2)).reverse ++ s.notes := by
  induction evs with
  | nil => intro s; simp [createAll]
  | cons e evs ih =>
    intro s
    have hstep : createNewNote s true e.1 e.2 =
        { notes := mkNewNote e.1 e.2 :: s.notes,
          currentNoteId := some (mkNewNote e.1 e.2).id,
          dirty := false,
          store := some (stringifyNotes (mkNewNote e.1 e.2 :: s.notes)) } := by
      simp [createNewNote, persistNotes]
    rw [show createAll (e :: evs) s = createAll evs (createNewNote s true e.1 e.2) from rfl,
      ih, hstep, List.map_cons, List.reverse_cons, List.append_assoc]
    rfl

/-! ## The claims -/

/-- Claim C4: for every state with `dirty` set, `selectNote` with the
confirmation declined is a no-op — notes, current id, dirty and the store
are all unchanged. -/
theorem C4_select_declined_is_noop (s : AppState) (id : String) (h : s.dirty = true) :
    selectNote s false id = s := by
  simp [selectNote, h]

theorem C4_witness :
    (AppState.mk [] (some "a") true none).dirty = true ∧
      selectNote (AppState.mk [] (some "a") true none) false "b" =
        AppState.mk [] (some "a") true none :=
  ⟨rfl, C4_select_declined_is_noop (AppState.mk [] (some "a") true none) "b" rfl⟩

/-- Claim C5 as universally stated is false on the code: the stored string
`"[1,2,3]"` is malformed as a note collection — it denotes an array of three
numbers, which is no note collection (`jsonToNotes` fails on it, and it is
not the serialization of any collection) — yet `loadNotes` does not yield an
empty collection: `JSON.parse` succeeds and the unchecked `as Note[]` cast
passes the junk value `[1,2,3]` straight through.  Only a `JSON.parse`
syntax error reaches the `catch` that yields `[]`. -/
theorem C5_counterexample :
    loadNotesJson (some "[1,2,3]") =
      Json.arr [Json.num ['1'], Json.num ['2'], Json.num ['3']] ∧
    loadNotesJson (some "[1,2,3]") ≠ Json.arr [] ∧
    jsonToNotes (loadNotesJson (some "[1,2,3]")) = none ∧
    parseNotes "[1,2,3]" = none := by
  have h1 : loadNotesJson (some "[1,2,3]") =
      Json.arr [Json.num ['1'], Json.num ['2'], Json.num ['3']] := rfl
  refine ⟨h1, ?_, rfl, by decide⟩
  rw [h1]
  simp

/-- Claim C5, amended: for every stored value that is absent or rejected by
`JSON.parse` (not syntactically valid JSON), `loadNotes` yields the empty
collection and raises no error; in particular the stored value `"not json"`
loads as the empty sequence.  (Stored strings that are valid JSON of some
other shape are instead returned as parsed, unvalidated.) -/
theorem C5_amended_load_invalid_json_empty (str : String) (h : parseJson str = none) :
    loadNotesJson none = Json.arr [] ∧ loadNotesJson (some str) = Json.arr [] := by
  refine ⟨rfl, ?_⟩
  unfold loadNotesJson
  dsimp only
  by_cases he : str = ""
  · rw [if_pos he]
  · rw [if_neg he, h]

theorem C5_amended_witness :
    parseJson "not json" = none ∧
      (loadNotesJson none = Json.arr [] ∧ loadNotesJson (some "not json") = Json.arr []) :=
  ⟨rfl, C5_amended_load_invalid_json_empty "not json" rfl⟩

/-- Claim C6: if `currentNoteId` refers to a note that is not present in
`notes`, the derived current note is none; in particular selecting a
nonexistent id (confirmation granted) yields no current note. -/
theorem C6_missing_id_gives_no_current (s : AppState) (id : String)
    (h : ∀ n ∈ s.notes, n.id ≠ id) :
    (s.currentNoteId = some id → currentNote s = none) ∧
      currentNote (selectNote s true id) = none := by
  have hfind : s.notes.find? (fun n => n.id == id) = none := by
    rw [List.find?_eq_none]
    intro n hmem
    simp [h n hmem]
  constructor
  · intro hcid
    unfold currentNote
    rw [hcid]
    dsimp only
    by_cases hid : id = ""
    · rw [if_pos hid]
    · rw [if_neg hid, hfind]
  · have hsel : selectNote s true id = { s with currentNoteId := some id, dirty := false } := by
      simp [selectNote]
    rw [hsel]
    unfold currentNote
    dsimp only
    by_cases hid : id = ""
    · rw [if_pos hid]
    · rw [if_neg hid, hfind]

theorem C6_witness :
    ((AppState.mk [Note.mk "a" "" "" 0 0] (some "zz") false none).currentNoteId = some "zz" →
      currentNote (AppState.mk [Note.mk "a" "" "" 0 0] (some "zz") false none) = none) ∧
    currentNote
      (selectNote (AppState.mk [Note.mk "a" "" "" 0 0] (some "zz") false none) true "zz") =
        none :=
  C6_missing_id_gives_no_current (AppState.mk [Note.mk "a" "" "" 0 0] (some "zz") false none)
    "zz" (by decide)

/-- Claim C8: persisting any collection and loading it back reproduces the
collection exactly — the serialization format round-trips. -/
theorem C8_persist_load_round_trip (s : AppState) :
    loadNotes (persistNotes s).store = s.notes := by
  unfold persistNotes loadNotes
  dsimp only
  rw [if_neg (stringifyNotes_ne_empty s.notes), parseNotes_stringify]

/-- Claim C2: when the dirty guard passes (dirty false, or confirmation
granted), `createNewNote` prepends a fresh note with empty title and body
and `created = updated`, persists the new collection, makes the new note
current, and clears `dirty`.  Instantiated at the empty initial state this
is Scenario A. -/
theorem C2_create_prepends_persists_selects (s : AppState) (confirm : Bool) (now : Nat)
    (rand : String) (h : s.dirty = true → confirm = true) :
    createNewNote s confirm now rand =
      { notes := mkNewNote now rand :: s.notes,
        currentNoteId := some (mkNewNote now rand).id,
        dirty := false,
        store := some (stringifyNotes (mkNewNote now rand :: s.notes)) } ∧
    currentNote (createNewNote s confirm now rand) = some (mkNewNote now rand) ∧
    (mkNewNote now rand).title = "" ∧ (mkNewNote now rand).body = "" ∧
    (mkNewNote now rand).created = (mkNewNote now rand).updated := by
  have hg : (s.dirty && !confirm) = false := by
    cases hd : s.dirty
    · simp
    · simp [h hd]
  have h1 : createNewNote s confirm now rand =
      { notes := mkNewNote now rand :: s.notes,
        currentNoteId := some (mkNewNote now rand).id,
        dirty := false,
        store := some (stringifyNotes (mkNewNote now rand :: s.notes)) } := by
    unfold createNewNote
    rw [hg]
    simp [persistNotes]
  refine ⟨h1, ?_, rfl, rfl, rfl⟩
  rw [h1]
  unfold currentNote
  dsimp only
  rw [if_neg (mkNewNote_id_ne_empty now rand)]
  rw [List.find?_cons_of_pos _ (by simp)]

theorem C2_witness :
    createNewNote initialState true 0 "r" =
      { notes := mkNewNote 0 "r" :: initialState.notes,
        currentNoteId := some (mkNewNote 0 "r").id,
        dirty := false,
        store := some (stringifyNotes (mkNewNote 0 "r" :: initialState.notes)) } ∧
    currentNote (createNewNote initialState true 0 "r") = some (mkNewNote 0 "r") ∧
    (mkNewNote 0 "r").title = "" ∧ (mkNewNote 0 "r").body = "" ∧
    (mkNewNote 0 "r").created = (mkNewNote 0 "r").updated :=
  C2_create_prepends_persists_selects initialState true 0 "r" (fun _ => rfl)

/-- Claim C3: deleting the current note (confirmation granted) makes the
current id the id of the new first note of the collection, or none if the
collection became empty, and clears `dirty`; when the new first note has a
truthy (non-empty) id the derived current note is that first note, and
deleting the only note leaves the collection empty with no current note
(Scenario D). -/
theorem C3_delete_current_moves_to_first (s : AppState) (id : String) (cur : Note)
    (hcur : currentNote s = some cur) (hid : id = cur.id) :
    (deleteNote s true id).currentNoteId =
        (deleteNote s true id).notes.head?.map Note.id ∧
    (deleteNote s true id).dirty = false ∧
    (∀ hd tl, (deleteNote s true id).notes = hd :: tl → hd.id ≠ "" →
      currentNote (deleteNote s true id) = some hd) ∧
    (s.notes = [cur] → (deleteNote s true id).notes = [] ∧
      (deleteNote s true id).currentNoteId = none) := by
  obtain ⟨hcid, hne, hfind⟩ := currentNote_eq_some s cur hcur
  subst hid
  have hmem : cur ∈ s.notes := List.mem_of_find?_eq_some hfind
  have hany : s.notes.any (fun n => n.id == cur.id) = true := by
    rw [List.any_eq_true]
    exact ⟨cur, hmem, by simp⟩
  have hres : deleteNote s true cur.id =
      { notes := removeFirst (fun n => n.id == cur.id) s.notes,
        currentNoteId :=
          (removeFirst (fun n => n.id == cur.id) s.notes).head?.map Note.id,
        dirty := false,
        store := some (stringifyNotes (removeFirst (fun n => n.id == cur.id) s.notes)) } := by
    simp [deleteNote, removeAndPersist, fixupCurrent, persistNotes, hany, hcid]
  refine ⟨by rw [hres], by rw [hres], ?_, ?_⟩
  · intro hd tl hnotes hhd
    rw [hres] at hnotes ⊢
    dsimp only at hnotes
    unfold currentNote
    dsimp only
    rw [hnotes]
    simp only [List.head?_cons, Option.map_some']
    rw [if_neg hhd]
    exact List.find?_cons_of_pos _ (by simp)
  · intro honly
    rw [hres]
    dsimp only
    rw [honly]
    rw [show removeFirst (fun n => n.id == cur.id) [cur] = [] from by simp [removeFirst]]
    exact ⟨rfl, rfl⟩

theorem C3_witness :
    (deleteNote (AppState.mk [Note.mk "a" "t" "b" 0 0] (some "a") true none) true "a").notes =
        [] ∧
    (deleteNote (AppState.mk [Note.mk "a" "t" "b" 0 0] (some "a") true none) true
        "a").currentNoteId = none ∧
    (deleteNote (AppState.mk [Note.mk "a" "t" "b" 0 0] (some "a") true none) true
        "a").dirty = false := by
  have h := C3_delete_current_moves_to_first
    (AppState.mk [Note.mk "a" "t" "b" 0 0] (some "a") true none) "a" (Note.mk "a" "t" "b" 0 0)
    (by decide) rfl
  exact ⟨(h.2.2.2 rfl).1, (h.2.2.2 rfl).2, h.2.1⟩

/-- Claim C10: whenever a current note exists, the index lookup in
`saveCurrentNote` succeeds (the `idx === -1` branch is unreachable), and
saving commits the current note, persists the collection and clears
`dirty`. -/
theorem C10_save_index_always_found (s : AppState) (cur : Note)
    (h : currentNote s = some cur) :
    s.notes.any (fun n => n.id == cur.id) = true ∧
    saveCurrentNote s =
      persistNotes
        { s with
            notes := updateFirst (fun n => n.id == cur.id) (fun _ => cur) s.notes,
            dirty := false } ∧
    (saveCurrentNote s).dirty = false ∧
    (saveCurrentNote s).store = some (stringifyNotes (saveCurrentNote s).notes) := by
  obtain ⟨hcid, hne, hfind⟩ := currentNote_eq_some s cur h
  have hmem : cur ∈ s.notes := List.mem_of_find?_eq_some hfind
  have hany : s.notes.any (fun n => n.id == cur.id) = true := by
    rw [List.any_eq_true]
    exact ⟨cur, hmem, by simp⟩
  have hsave : saveCurrentNote s =
      persistNotes
        { s with
            notes := updateFirst (fun n => n.id == cur.id) (fun _ => cur) s.notes,
            dirty := false } := by
    unfold saveCurrentNote
    rw [h]
    dsimp only
    rw [if_pos hany]
  exact ⟨hany, hsave, by rw [hsave]; rfl, by rw [hsave]; rfl⟩

theorem C10_witness :
    (AppState.mk [Note.mk "a" "t" "b" 0 0] (some "a") true none).notes.any
        (fun n => n.id == (Note.mk "a" "t" "b" 0 0).id) = true ∧
    saveCurrentNote (AppState.mk [Note.mk "a" "t" "b" 0 0] (some "a") true none) =
      persistNotes
        { AppState.mk [Note.mk "a" "t" "b" 0 0] (some "a") true none with
            notes := updateFirst (fun n => n.id == (Note.mk "a" "t" "b" 0 0).id)
              (fun _ => Note.mk "a" "t" "b" 0 0)
              (AppState.mk [Note.mk "a" "t" "b" 0 0] (some "a") true none).notes,
            dirty := false } ∧
    (saveCurrentNote (AppState.mk [Note.mk "a" "t" "b" 0 0] (some "a") true none)).dirty =
        false ∧
    (saveCurrentNote (AppState.mk [Note.mk "a" "t" "b" 0 0] (some "a") true none)).store =
      some (stringifyNotes
        (saveCurrentNote (AppState.mk [Note.mk "a" "t" "b" 0 0] (some "a") true none)).notes) :=
  C10_save_index_always_found (AppState.mk [Note.mk "a" "t" "b" 0 0] (some "a") true none)
    (Note.mk "a" "t" "b" 0 0) (by decide)

/-- Notes are untouched by the current-id fixup block of `deleteNote`. -/
theorem fixupCurrent_notes (t : AppState) (id : String) :
    (fixupCurrent t id).notes = t.notes := by
  unfold fixupCurrent
  split <;> rfl

theorem head?_map_ne_of_any_false (l : List Note) (id : String)
    (h : l.any (fun n => n.id == id) = false) :
    l.head?.map Note.id ≠ some id := by
  cases l with
  | nil => simp
  | cons a t =>
    simp only [List.head?_cons, Option.map_some']
    intro hcontra
    injection hcontra with hcontra
    rw [List.any_cons] at h
    rw [hcontra] at h
    simp at h

theorem removeAndPersist_of_any_false (t : AppState) (id : String)
    (h : t.notes.any (fun n => n.id == id) = false) :
    removeAndPersist t id = t := by
  unfold removeAndPersist
  rw [h]
  rfl

theorem fixupCurrent_fix (t : AppState) (id : String)
    (h : t.notes.any (fun n => n.id == id) = false) :
    (fixupCurrent t id).currentNoteId ≠ some id := by
  unfold fixupCurrent
  by_cases hc : t.currentNoteId = some id
  · rw [if_pos hc]
    exact head?_map_ne_of_any_false t.notes id h
  · rw [if_neg hc]
    exact hc

/-- Claim C9: on a collection whose ids are unique (the documented
representation invariant), `deleteNote` with confirmation granted is
idempotent — a second delete of the same id changes nothing — and deleting
an id that is not present leaves the collection unchanged. -/
theorem C9_delete_idempotent (s : AppState) (id : String)
    (hnd : (s.notes.map Note.id).Nodup) :
    deleteNote (deleteNote s true id) true id = deleteNote s true id ∧
    ((∀ n ∈ s.notes, n.id ≠ id) → (deleteNote s true id).notes = s.notes) := by
  have hdel : ∀ t : AppState, deleteNote t true id = fixupCurrent (removeAndPersist t id) id := by
    intro t
    rfl
  constructor
  · have hANY : (deleteNote s true id).notes.any (fun n => n.id == id) = false := by
      rw [hdel, fixupCurrent_notes]
      unfold removeAndPersist
      by_cases hany : s.notes.any (fun n => n.id == id) = true
      · rw [if_pos hany]
        rw [show (persistNotes
            { s with notes := removeFirst (fun n => n.id == id) s.notes }).notes =
          removeFirst (fun n => n.id == id) s.notes from rfl]
        rw [List.any_eq_false]
        intro n hn
        simp [removeFirst_no_match s.notes id hnd n hn]
      · rw [if_neg hany]
        simpa using hany
    rw [hdel (deleteNote s true id), removeAndPersist_of_any_false _ _ hANY]
    unfold fixupCurrent
    rw [if_neg ?_]
    rw [hdel s]
    refine fixupCurrent_fix (removeAndPersist s id) id ?_
    rw [← fixupCurrent_notes (removeAndPersist s id) id, ← hdel s]
    exact hANY
  · intro hno
    have hany : s.notes.any (fun n => n.id == id) = false := by
      rw [List.any_eq_false]
      intro n hn
      simp [hno n hn]
    rw [hdel s, removeAndPersist_of_any_false _ _ hany, fixupCurrent_notes]

theorem C9_witness :
    (((AppState.mk [Note.mk "a" "t" "b" 0 0] (some "a") false none).notes.map
        Note.id).Nodup) ∧
    (deleteNote (deleteNote (AppState.mk [Note.mk "a" "t" "b" 0 0] (some "a") false none)
        true "a") true "a" =
      deleteNote (AppState.mk [Note.mk "a" "t" "b" 0 0] (some "a") false none) true "a") ∧
    ((∀ n ∈ (AppState.mk [Note.mk "a" "t" "b" 0 0] (some "a") false none).notes,
        n.id ≠ "zz") →
      (deleteNote (AppState.mk [Note.mk "a" "t" "b" 0 0] (some "a") false none)
        true "zz").notes =
        (AppState.mk [Note.mk "a" "t" "b" 0 0] (some "a") false none).notes) :=
  ⟨by decide,
    (C9_delete_idempotent (AppState.mk [Note.mk "a" "t" "b" 0 0] (some "a") false none)
      "a" (by decide)).1,
    (C9_delete_idempotent (AppState.mk [Note.mk "a" "t" "b" 0 0] (some "a") false none)
      "zz" (by decide)).2⟩

/-- Claim C7: starting from the empty initial state, any sequence of
`createNewNote` calls yields exactly the reverse of the creation order
(most recently created note first); when the event instants are
nondecreasing, the `created` stamps along the list are nonincreasing
(reverse-chronological). -/
theorem C7_create_order_reverse_chronological (evs : List (Nat × String))
    (hmono : List.Chain' (fun a b => a ≤ b) (evs.map Prod.fst)) :
    (createAll evs initialState).notes =
      (evs.map (fun e => mkNewNote e.1 e.2)).reverse ∧
    List.Chain' (fun a b => b.created ≤ a.created) (createAll evs initialState).notes := by
  have h1 : (createAll evs initialState).notes =
      (evs.map (fun e => mkNewNote e.1 e.2)).reverse := by
    rw [createAll_notes]
    simp [initialState]
  refine ⟨h1, ?_⟩
  rw [h1, List.chain'_reverse, List.chain'_map]
  rw [List.chain'_map] at hmono
  exact hmono

theorem C7_witness :
    (createAll [(0, "r"), (1, "q")] initialState).notes =
      ([(0, "r"), (1, "q")].map (fun e => mkNewNote e.1 e.2)).reverse ∧
    List.Chain' (fun a b => b.created ≤ a.created)
      (createAll [(0, "r"), (1, "q")] initialState).notes :=
  C7_create_order_reverse_chronological [(0, "r"), (1, "q")]
    (by simp [List.chain'_cons])

/-- Claim C1 as stated is false on the code: at a state holding one
persisted note which is current and clean, an edit gesture on the current
note does set `dirty`, but the persisted snapshot does NOT stay unchanged
until `save()` — the `v-model` write mutates the note object inside
`notes`, and the deep watcher `watch(notes, persistNotes, deep)` persists
the mutation before any later action, so the store already differs right
after the edit. -/
theorem C1_counterexample :
    currentNote (AppState.mk [Note.mk "a" "" "" 0 0] (some "a") false
        (some (stringifyNotes [Note.mk "a" "" "" 0 0]))) = some (Note.mk "a" "" "" 0 0) ∧
    (edit (AppState.mk [Note.mk "a" "" "" 0 0] (some "a") false
        (some (stringifyNotes [Note.mk "a" "" "" 0 0]))) (some "X") none 1).dirty = true ∧
    (edit (AppState.mk [Note.mk "a" "" "" 0 0] (some "a") false
        (some (stringifyNotes [Note.mk "a" "" "" 0 0]))) (some "X") none 1).store ≠
      (AppState.mk [Note.mk "a" "" "" 0 0] (some "a") false
        (some (stringifyNotes [Note.mk "a" "" "" 0 0]))).store := by
  refine ⟨by decide, by decide, ?_⟩
  decide

/-- Claim C1, amended: an edit gesture on a current note sets `dirty` and
leaves the store holding the serialization of the already-updated notes
array (the ambient deep watcher persists the in-place edit immediately,
without waiting for `save()`). -/
theorem C1_amended_edit_sets_dirty_and_autopersists (s : AppState) (cur : Note)
    (newTitle newBody : Option String) (now : Nat) (h : currentNote s = some cur) :
    (edit s newTitle newBody now).dirty = true ∧
    (edit s newTitle newBody now).store =
      some (stringifyNotes (edit s newTitle newBody now).notes) := by
  obtain ⟨hcid, hne, hfind⟩ := currentNote_eq_some s cur h
  set f : Note → Note := fun n =>
    { n with title := newTitle.getD n.title, body := newBody.getD n.body } with hf
  have hwm : writeModel s newTitle newBody =
      { s with notes := updateFirst (fun n => n.id == cur.id) f s.notes } := by
    unfold writeModel
    rw [h]
  have hfindW : (updateFirst (fun n => n.id == cur.id) f s.notes).find?
      (fun n => n.id == cur.id) = some (f cur) :=
    find?_updateFirst (fun n => n.id == cur.id) f s.notes (fun n hp => hp) cur hfind
  have hcurW : currentNote (writeModel s newTitle newBody) = some (f cur) := by
    rw [hwm]
    unfold currentNote
    dsimp only
    rw [hcid]
    dsimp only
    rw [if_neg hne, hfindW]
  have hupd : updateCurrentNote (writeModel s newTitle newBody) now =
      { writeModel s newTitle newBody with
          notes := updateFirst (fun n => n.id == (f cur).id)
            (fun n => { n with updated := now }) (writeModel s newTitle newBody).notes,
          dirty := true } := by
    unfold updateCurrentNote
    rw [hcurW]
  have hedit : edit s newTitle newBody now =
      persistNotes (updateCurrentNote (writeModel s newTitle newBody) now) := by
    unfold edit
    rw [h]
  rw [hedit, hupd]
  exact ⟨rfl, rfl⟩

theorem C1_amended_witness :
    currentNote (AppState.mk [Note.mk "a" "" "" 0 0] (some "a") false
        (some (stringifyNotes [Note.mk "a" "" "" 0 0]))) = some (Note.mk "a" "" "" 0 0) ∧
    ((edit (AppState.mk [Note.mk "a" "" "" 0 0] (some "a") false
        (some (stringifyNotes [Note.mk "a" "" "" 0 0]))) (some "X") none 1).dirty = true ∧
      (edit (AppState.mk [Note.mk "a" "" "" 0 0] (some "a") false
          (some (stringifyNotes [Note.mk "a" "" "" 0 0]))) (some "X") none 1).store =
        some (stringifyNotes
          (edit (AppState.mk [Note.mk "a" "" "" 0 0] (some "a") false
            (some (stringifyNotes [Note.mk "a" "" "" 0 0]))) (some "X") none 1).notes)) :=
  ⟨by decide,
    C1_amended_edit_sets_dirty_and_autopersists
      (AppState.mk [Note.mk "a" "" "" 0 0] (some "a") false
        (some (stringifyNotes [Note.mk "a" "" "" 0 0]))) (Note.mk "a" "" "" 0 0)
      (some "X") none 1 (by decide)⟩

end NotesApp
